import Mathlib

/-!
Verification of the file-metadata preservation subsystem of this repository:
the Windows extended-attribute (EA) binary codec, the EA query retry loop,
the generic-attribute capture/restore dispatch, the Windows encryption-flag
reconciler, and the POSIX xattr adapter.

Bytes are modelled as `Nat` (a Go `byte` always holds a value below 256; the
values produced by the code never exceed 255 where it matters, and the header
fields written with explicit truncations carry `% 256` / `% 65536` exactly
where the Go code casts to `uint8` / `uint16`).  Buffers are `List Nat`.
Fallible operations return `Except`/`Option`; OS primitives that the code
calls but does not define (syscalls, the xattr library) are passed in as
explicit environments recording the outcome of each call.
-/

set_option maxRecDepth 100000

deriving instance DecidableEq for Except

namespace Fs

/-- One error value per named error of `internal/fs/ea_windows.go`:
`errInvalidEaBuffer`, `errEaNameTooLarge`, `errEaValueTooLarge`. -/
inductive EaError where
  | invalidBuffer
  | nameTooLarge
  | valueTooLarge
deriving DecidableEq, Repr

/-- `ExtendedAttribute` of `ea_windows.go`: `Name string`, `Value []byte`,
`Flags uint8`.  Name and value are byte lists; `Flags` is a `Nat` that the
Go type system constrains to be below 256. -/
structure ExtendedAttribute where
  Name : List Nat
  Value : List Nat
  Flags : Nat
deriving DecidableEq, Repr

/-- `binary.Size(&fileFullEaInformation{})`: u32 + u8 + u8 + u16 = 8 bytes. -/
def fileFullEaInformationSize : Nat := 8

/-- Little-endian encoding of a `uint16` as written by `binary.Write`. -/
def u16le (n : Nat) : List Nat := [n % 256, n / 256 % 256]

/-- Little-endian encoding of a `uint32` as written by `binary.Write`. -/
def u32le (n : Nat) : List Nat :=
  [n % 256, n / 256 % 256, n / 65536 % 256, n / 16777216 % 256]

/-- Little-endian read of a `uint16` from two bytes, as `binary.Read` does. -/
def readU16 (b0 b1 : Nat) : Nat := b0 + 256 * b1

/-- Little-endian read of a `uint32` from four bytes, as `binary.Read` does. -/
def readU32 (b0 b1 b2 b3 : Nat) : Nat :=
  b0 + 256 * b1 + 65536 * b2 + 16777216 * b3

/-- `parseEa` of `ea_windows.go`.  Reads one `fileFullEaInformation` header
(8 bytes, failing with `errInvalidEaBuffer` when the buffer is shorter, as
`binary.Read` then fails), slices name and value at the fixed offsets,
validates `valueOffset+valueLen ≤ len(b)` and `nextOffset ≤ len(b)`
(`nextOffset < 0` cannot happen: it is a `uint32` in Go, a `Nat` here), and
returns the attribute together with the remaining buffer `nb`, which is
`b[nextOffset:]` when `NextEntryOffset ≠ 0` and the empty ("nil") buffer
otherwise. -/
def parseEa (b : List Nat) : Except EaError (ExtendedAttribute × List Nat) :=
  if b.length < fileFullEaInformationSize then .error .invalidBuffer
  else
    let nextOffset := readU32 (b.getD 0 0) (b.getD 1 0) (b.getD 2 0) (b.getD 3 0)
    let flags := b.getD 4 0
    let nameLen := b.getD 5 0
    let valueLen := readU16 (b.getD 6 0) (b.getD 7 0)
    let nameOffset := fileFullEaInformationSize
    let valueOffset := nameOffset + nameLen + 1
    if valueLen + valueOffset > b.length ∨ nextOffset > b.length then
      .error .invalidBuffer
    else
      .ok (⟨(b.drop nameOffset).take nameLen, (b.drop valueOffset).take valueLen, flags⟩,
           if nextOffset ≠ 0 then b.drop nextOffset else [])

/-- The loop of `DecodeExtendedAttributes`: repeat `parseEa` while the buffer
is non-empty.  The Go loop terminates because the remaining buffer shrinks on
every iteration; here the iteration count is bounded by an explicit fuel
argument, and the wrapper below supplies fuel `b.length + 1`, which is always
sufficient because `parseEa` either stops (`nb = []`) or advances by a
positive offset. -/
def decodeLoop : Nat → List Nat → Except EaError (List ExtendedAttribute)
  | 0, _ => .error .invalidBuffer
  | fuel + 1, b =>
    if b = [] then .ok []
    else
      match parseEa b with
      | .error e => .error e
      | .ok (ea, nb) =>
        match decodeLoop fuel nb with
        | .error e => .error e
        | .ok eas => .ok (ea :: eas)

/-- `DecodeExtendedAttributes` of `ea_windows.go`. -/
def DecodeExtendedAttributes (b : List Nat) : Except EaError (List ExtendedAttribute) :=
  decodeLoop (b.length + 1) b

/-- The byte image produced by a successful `writeEa`: the 8-byte header
(`NextEntryOffset`, `Flags`, `NameLength`, `ValueLength`, little-endian, with
the `uint8`/`uint16` casts of the Go struct fields), the name, a 0 byte, the
value, and zero padding to 4-byte alignment.  `(entrySize + 3) &^ 3` is
`(entrySize + 3) / 4 * 4`. -/
def writeEaBytes (ea : ExtendedAttribute) (last : Bool) : List Nat :=
  let entrySize := fileFullEaInformationSize + ea.Name.length + 1 + ea.Value.length
  let withPadding := (entrySize + 3) / 4 * 4
  let nextOffset := if last then 0 else withPadding
  u32le nextOffset ++ [ea.Flags % 256, ea.Name.length % 256] ++ u16le ea.Value.length
    ++ ea.Name ++ [0] ++ ea.Value ++ List.replicate (withPadding - entrySize) 0

/-- `writeEa` of `ea_windows.go`.  `int(uint8(len(Name))) != len(Name)` is
`len % 256 ≠ len`, i.e. `len > 255`; similarly for the value with `uint16`.
After the two size checks the Go writes to a `bytes.Buffer` cannot fail. -/
def writeEa (ea : ExtendedAttribute) (last : Bool) : Except EaError (List Nat) :=
  if ea.Name.length % 256 ≠ ea.Name.length then .error .nameTooLarge
  else if ea.Value.length % 65536 ≠ ea.Value.length then .error .valueTooLarge
  else .ok (writeEaBytes ea last)

/-- `EncodeExtendedAttributes` of `ea_windows.go`: write each attribute with
`last` set only on the final one; on the first `writeEa` error return that
error and no buffer at all (`return nil, err`). -/
def EncodeExtendedAttributes : List ExtendedAttribute → Except EaError (List Nat)
  | [] => .ok []
  | [ea] => writeEa ea true
  | ea :: ea2 :: rest =>
    match writeEa ea false with
    | .error e => .error e
    | .ok bs =>
      match EncodeExtendedAttributes (ea2 :: rest) with
      | .error e => .error e
      | .ok bs2 => .ok (bs ++ bs2)

/-- One OS reply to an `NtQueryEaFile` probe, as observed by `GetFileEA`: a
non-negative status with the filled buffer, the distinguished
`noExtendedAttribsStatus` (-1073741742), a negative status whose DOS error is
`ERROR_INSUFFICIENT_BUFFER` or `ERROR_MORE_DATA`, or any other failing
status. -/
inductive EaQueryReply where
  | success (buf : List Nat)
  | noEas
  | insufficientBuffer
  | moreData
  | otherError
deriving DecidableEq, Repr

/-- Failures surfaced by `GetFileEA`: the wrapped windows error of a failing
query, or a decode failure on the returned buffer. -/
inductive GetEaError where
  | queryFailed
  | decodeFailed (e : EaError)
deriving DecidableEq, Repr

/-- The retry loop of `GetFileEA`, driven by the sequence of OS replies (one
per `getFileEA` syscall) and the current buffer length.  Returns the list of
buffer lengths probed, in order, together with the final outcome; `none` when
the reply sequence runs out while the loop would query again (a model
artifact: the Go loop simply issues the next syscall). -/
def getFileEALoop : List EaQueryReply → Nat →
    Option (List Nat × Except GetEaError (List ExtendedAttribute))
  | [], _ => none
  | r :: rs, bufLen =>
    match r with
    | .noEas => some ([bufLen], .ok [])
    | .success buf =>
      some ([bufLen],
        match DecodeExtendedAttributes buf with
        | .error e => .error (.decodeFailed e)
        | .ok eas => .ok eas)
    | .insufficientBuffer =>
      match getFileEALoop rs (bufLen * 2) with
      | none => none
      | some (sizes, res) => some (bufLen :: sizes, res)
    | .moreData =>
      match getFileEALoop rs (bufLen * 2) with
      | none => none
      | some (sizes, res) => some (bufLen :: sizes, res)
    | .otherError => some ([bufLen], .error .queryFailed)

/-- `GetFileEA` of `ea_windows.go`: `bufLen := 1024`, then the query loop,
doubling `bufLen` on each insufficient-buffer or more-data status. -/
def GetFileEA (replies : List EaQueryReply) :
    Option (List Nat × Except GetEaError (List ExtendedAttribute)) :=
  getFileEALoop replies 1024

end Fs

namespace Restic

/-- A Windows error as distinguished by the restore code: `fs.IsAccessDenied`
tests for `ERROR_ACCESS_DENIED`; every other error value is only wrapped and
reported. -/
inductive WinError where
  | accessDenied
  | other
deriving DecidableEq, Repr

/-- `restic.Attribute{Name string, Value []byte}`, used both for extended
attributes and for generic attributes of a `Node`. -/
structure Attribute where
  Name : String
  Value : List Nat
deriving DecidableEq, Repr

/-- Modelled from the spec: the tag constant `TypeFileAttribute` is declared
outside the given source files; the spec calls the Windows tags
file-attribute-bits, creation-time and security-descriptor.  Only their
values' distinctness matters here. -/
def TypeFileAttribute : String := "file-attribute-bits"

/-- Modelled from the spec: the tag constant `TypeCreationTime`, see
`TypeFileAttribute`. -/
def TypeCreationTime : String := "creation-time"

/-- Modelled from the spec: the tag constant `TypeSecurityDescriptor`, see
`TypeFileAttribute`. -/
def TypeSecurityDescriptor : String := "security-descriptor"

/-- Modelled from the spec: `NewGenericAttribute` (declared outside the given
source files) pairs a type tag with its value bytes. -/
def NewGenericAttribute (ty : String) (v : List Nat) : Attribute := ⟨ty, v⟩

/-- The `Node` fields the metadata subsystem touches.  The Go field `Type`
is called `NodeType` here because `Type` is a Lean keyword. -/
structure Node where
  Name : String
  NodeType : String
  ExtendedAttributes : List Attribute
  GenericAttributes : List Attribute
deriving DecidableEq, Repr

/-- `UInt32ToBytes` of `node_windows.go`: 4-byte little-endian image of a
`uint32` value. -/
def UInt32ToBytes (value : Nat) : List Nat :=
  [value % 256, value / 256 % 256, value / 65536 % 256, value / 16777216 % 256]

/-- `getFileAttributes` of `node_windows.go`. -/
def getFileAttributes (fileattr : Nat) : Attribute :=
  NewGenericAttribute TypeFileAttribute (UInt32ToBytes fileattr)

/-- `GetCreationTime` of `node_windows.go`.  `fi.Sys()` is modelled as an
optional pair of the creation time's low and high DWORDs: `none` when the
cast to `*syscall.Win32FileAttributeData` fails, in which case the function
only debug-logs and returns the zero `Attribute`. -/
def GetCreationTime (sys : Option (Nat × Nat)) : Attribute :=
  match sys with
  | some (low, high) =>
    NewGenericAttribute TypeCreationTime (UInt32ToBytes low ++ UInt32ToBytes high)
  | none => ⟨"", []⟩

/-- `appendGenericAttribute` of `node_windows.go`: append only a non-zero
attribute (one whose `Name` is not empty). -/
def Node.appendGenericAttribute (node : Node) (genericAttribute : Attribute) : Node :=
  if genericAttribute.Name ≠ "" then
    { node with GenericAttributes := node.GenericAttributes ++ [genericAttribute] }
  else node

/-- `getSecurityDescriptor` of `node_windows.go`.  `fs.GetFileSecurityDescriptor`
is an OS primitive; its outcome is the argument (the encoded descriptor's
bytes, `[]byte(sd)`, on success).  On failure the wrapped error is returned
with the zero attribute; an empty descriptor string also yields the zero
attribute but no error. -/
def getSecurityDescriptor (sdResult : Except WinError (List Nat)) :
    Attribute × Option WinError :=
  match sdResult with
  | .error e => (⟨"", []⟩, some e)
  | .ok sd => (if sd ≠ [] then NewGenericAttribute TypeSecurityDescriptor sd else ⟨"", []⟩, none)

/-- The inputs of one `fillGenericAttributes` call that the code obtains from
the OS and the standard library: whether `strings.Contains(filepath.Base(path), ":")`
holds (an alternate-data-stream path), whether
`strings.HasSuffix(filepath.Clean(path), "\")` holds (true exactly for drive
roots such as `C:\`), `stat.FileAttributes`, the `fi.Sys()` creation time, and
the outcome of `fs.GetFileSecurityDescriptor`. -/
structure FillEnv where
  baseHasColon : Bool
  cleanEndsBackslash : Bool
  fileAttributes : Nat
  creationTime : Option (Nat × Nat)
  sdResult : Except WinError (List Nat)
deriving DecidableEq, Repr

/-- `fillGenericAttributes` of `internal/restic/node_windows.go` (the current
variant).  Returns the filled node, `allowExtended`, and the returned error.
Note two source facts this definition mirrors: (1) only the ADS check
(`baseHasColon`) returns `false`; a drive root merely skips the
file-attribute and creation-time capture and then falls through, returning
`true`; (2) `sd, err := getSecurityDescriptor(path)` redeclares `err` in the
inner scope, so the named return `err` is never set and the function always
returns a nil error. -/
def Node.fillGenericAttributes (node : Node) (env : FillEnv) :
    Node × Bool × Option WinError :=
  if env.baseHasColon then (node, false, none)
  else
    let node1 :=
      if ¬env.cleanEndsBackslash then
        (node.appendGenericAttribute (getFileAttributes env.fileAttributes)).appendGenericAttribute
          (GetCreationTime env.creationTime)
      else node
    let node2 :=
      if node.NodeType = "file" ∨ node.NodeType = "dir" then
        match getSecurityDescriptor env.sdResult with
        | (sd, none) => node1.appendGenericAttribute sd
        | (_, some _) => node1
      else node1
    (node2, true, none)

/-- `fillGenericAttributes` of the older windows node file (the second file
in `src/unnamed/part_002`): here the ADS condition and the drive-root
condition are checked together and both return `allowExtended = false` with
no error and no captured attributes; there is no security-descriptor
support. -/
def Node.fillGenericAttributesOld (node : Node) (env : FillEnv) :
    Node × Bool × Option WinError :=
  if env.baseHasColon ∨ env.cleanEndsBackslash then (node, false, none)
  else
    ((node.appendGenericAttribute (getFileAttributes env.fileAttributes)).appendGenericAttribute
      (GetCreationTime env.creationTime), true, none)

/-- The outcomes of the OS primitives that one `fixEncryptionAttribute` call
may consult: the first and (after clearing the system flag) second
`EncryptFile` / `DecryptFile` calls, `fs.ClearSystem`, and
`windows.GetFileAttributes`. -/
structure EncEnv where
  encrypt1 : Option WinError
  encrypt2 : Option WinError
  decrypt1 : Option WinError
  decrypt2 : Option WinError
  clearSystem : Option WinError
  getFileAttributes : Except WinError Nat
deriving DecidableEq, Repr

/-- The OS primitives invoked by the file-attribute restore path, recorded in
call order. -/
inductive Prim where
  | encrypt
  | decrypt
  | clearSystemFlag
  | getAttrs
  | setAttrs
deriving DecidableEq, Repr

/-- The distinct `fmt.Errorf` failures of `fixEncryptionAttribute`. -/
inductive FixError where
  | clearSystemFailed (e : WinError)
  | encryptFailed (e : WinError)
  | decryptFailed (e : WinError)
  | getAttributesFailed (e : WinError)
deriving DecidableEq, Repr

/-- `windows.FILE_ATTRIBUTE_ENCRYPTED` (0x4000). -/
def FILE_ATTRIBUTE_ENCRYPTED : Nat := 16384

/-- `fixEncryptionAttribute` of `node_windows.go`, returning the sequence of
OS primitives invoked and the error outcome.  When the desired attribute bits
contain the encrypted flag, `EncryptFile` is called (unconditionally — the
current state is not consulted in this branch); an access-denied failure is
retried once after `fs.ClearSystem`.  Otherwise the current attributes are
read and `DecryptFile` runs, with the same retry, only when the file is
currently encrypted. -/
def fixEncryptionAttribute (attrs : Nat) (env : EncEnv) : List Prim × Option FixError :=
  if attrs &&& FILE_ATTRIBUTE_ENCRYPTED ≠ 0 then
    match env.encrypt1 with
    | none => ([.encrypt], none)
    | some e =>
      if e = .accessDenied then
        match env.clearSystem with
        | some e2 => ([.encrypt, .clearSystemFlag], some (.clearSystemFailed e2))
        | none =>
          match env.encrypt2 with
          | some e3 => ([.encrypt, .clearSystemFlag, .encrypt], some (.encryptFailed e3))
          | none => ([.encrypt, .clearSystemFlag, .encrypt], none)
      else ([.encrypt], some (.encryptFailed e))
  else
    match env.getFileAttributes with
    | .error e => ([.getAttrs], some (.getAttributesFailed e))
    | .ok existingAttrs =>
      if existingAttrs &&& FILE_ATTRIBUTE_ENCRYPTED ≠ 0 then
        match env.decrypt1 with
        | none => ([.getAttrs, .decrypt], none)
        | some e =>
          if e = .accessDenied then
            match env.clearSystem with
            | some e2 =>
              ([.getAttrs, .decrypt, .clearSystemFlag], some (.clearSystemFailed e2))
            | none =>
              match env.decrypt2 with
              | some e3 =>
                ([.getAttrs, .decrypt, .clearSystemFlag, .decrypt], some (.decryptFailed e3))
              | none => ([.getAttrs, .decrypt, .clearSystemFlag, .decrypt], none)
          else ([.getAttrs, .decrypt], some (.decryptFailed e))
      else ([.getAttrs], none)

/-- The per-attribute-handler failures distinguished by the restore path. -/
inductive HandlerError where
  | utf16Failed
  | setAttributesFailed (e : WinError)
  | createFileFailed (e : WinError)
  | setFileTimeFailed (e : WinError)
  | setSecurityDescriptorFailed (e : WinError)
deriving DecidableEq, Repr

/-- The outcomes of the OS primitives one `restoreGenericAttribute` dispatch
may consult: `syscall.UTF16PtrFromString`, the encryption-reconciliation
environment, `syscall.SetFileAttributes`, `syscall.CreateFile`,
`syscall.SetFileTime`, and `fs.SetFileSecurityDescriptor`. -/
structure AttrEnv where
  utf16 : Option WinError
  enc : EncEnv
  setFileAttributes : Option WinError
  createFile : Option WinError
  setFileTime : Option WinError
  setSecurityDescriptor : Option WinError
deriving DecidableEq, Repr

/-- `handleFileAttributes` of `node_windows.go`: read the desired bits with
`binary.LittleEndian.Uint32(data)` (the claims only use 4-byte values; Go
would panic on a shorter slice), run `fixEncryptionAttribute` — whose error
is only handed to `debug.Log` — and return the result of
`syscall.SetFileAttributes`.  The first component is the OS primitive call
trace. -/
def handleFileAttributes (data : List Nat) (env : AttrEnv) :
    List Prim × Option HandlerError :=
  let attrs := Fs.readU32 (data.getD 0 0) (data.getD 1 0) (data.getD 2 0) (data.getD 3 0)
  match env.utf16 with
  | some _ => ([], some .utf16Failed)
  | none =>
    let fixResult := fixEncryptionAttribute attrs env.enc
    (fixResult.1 ++ [.setAttrs], env.setFileAttributes.map .setAttributesFailed)

/-- `handleCreationTime` of `node_windows.go`: UTF-16 conversion, then
`CreateFile`, then `SetFileTime` with the two DWORDs taken from `data`; each
failure is returned, the handle is closed on every path. -/
def handleCreationTime (data : List Nat) (env : AttrEnv) : Option HandlerError :=
  match env.utf16 with
  | some _ => some .utf16Failed
  | none =>
    match env.createFile with
    | some e => some (.createFileFailed e)
    | none => env.setFileTime.map .setFileTimeFailed

/-- `handleSecurityDescriptor` of `node_windows.go`: the outcome of
`fs.SetFileSecurityDescriptor(path, string(data))`. -/
def handleSecurityDescriptor (env : AttrEnv) : Option HandlerError :=
  env.setSecurityDescriptor.map .setSecurityDescriptorFailed

/-- Modelled from the spec: `handleUnknownGenericAttributeFound` is not among
the given source files (only its call sites are).  Per the spec it inserts
the attribute type into the process-wide unknown-type set and emits one
diagnostic only if the type was not already present.  Returns the new set and
whether a diagnostic was emitted. -/
def handleUnknownGenericAttributeFound (warned : List String) (name : String) :
    List String × Bool :=
  if name ∈ warned then (warned, false) else (name :: warned, true)

/-- `restoreGenericAttribute` of `node_windows.go`: dispatch on the attribute
type; the three known handlers' outcome is returned, any other type goes
through the warn-once path and returns nil.  The result is the new warned
set, whether a diagnostic was emitted, and the error outcome. -/
def restoreGenericAttribute (attr : Attribute) (env : AttrEnv) (warned : List String) :
    List String × Bool × Option HandlerError :=
  if attr.Name = TypeFileAttribute then (warned, false, (handleFileAttributes attr.Value env).2)
  else if attr.Name = TypeCreationTime then (warned, false, handleCreationTime attr.Value env)
  else if attr.Name = TypeSecurityDescriptor then (warned, false, handleSecurityDescriptor env)
  else
    let r := handleUnknownGenericAttributeFound warned attr.Name
    (r.1, r.2, none)

/-- The loop of `restoreGenericAttributes` (current `node_windows.go`
variant): process every attribute, collecting the errors of failing handlers
in order; each attribute is paired with the environment describing the OS
outcomes for its own handler calls. -/
def restoreGenericAttributesLoop :
    List (Attribute × AttrEnv) → List String → List String × List HandlerError
  | [], warned => (warned, [])
  | (attr, env) :: rest, warned =>
    let r := restoreGenericAttribute attr env warned
    let r2 := restoreGenericAttributesLoop rest r.1
    (r2.1, (match r.2.2 with | some e => [e] | none => []) ++ r2.2)

/-- Modelled from the spec: `errors.CombineErrors` is not among the given
source files; the spec says a combined/aggregate error is returned exactly
when per-attribute errors occurred.  Modelled as the list of collected
errors, `none` when there are none. -/
def combineErrors (errs : List HandlerError) : Option (List HandlerError) :=
  if errs = [] then none else some errs

/-- `restoreGenericAttributes` of `internal/restic/node_windows.go`: run every
attribute through `restoreGenericAttribute`, collect each failure, and return
`errors.CombineErrors` of the collected failures. -/
def Node.restoreGenericAttributes (node : Node) (envs : List AttrEnv)
    (warned : List String) : List String × Option (List HandlerError) :=
  let r := restoreGenericAttributesLoop (node.GenericAttributes.zip envs) warned
  (r.1, combineErrors r.2)

/-- The OS error conditions distinguished by `handleXattrErr` of the POSIX
xattr adapter: an `*xattr.Error` wrapping `ENOTSUP`, one wrapping
`ENOATTR` (seen on SMB/CIFS mounts), an `*xattr.Error` with any other errno,
or an error that is not an `*xattr.Error` at all. -/
inductive XattrOsError where
  | notSupported
  | noAttr
  | otherXattrError
  | plainError
deriving DecidableEq, Repr

/-- `handleXattrErr` of the POSIX adapter: nil stays nil; an `*xattr.Error`
wrapping `ENOTSUP` or `ENOATTR` is normalized to nil; everything else is
returned (wrapped with a stack, which does not change the error value). -/
def handleXattrErr : Option XattrOsError → Option XattrOsError
  | none => none
  | some .notSupported => none
  | some .noAttr => none
  | some .otherXattrError => some .otherXattrError
  | some .plainError => some .plainError

/-- The OS/xattr-library outcomes one `fillExtendedAttributes` or
`restoreExtendedAttributes` call may consult: `xattr.LList`, `xattr.LGet`
per name, and `xattr.LSet` per name/value. -/
structure XattrEnv where
  listResult : Except XattrOsError (List String)
  getResult : String → Except XattrOsError (List Nat)
  setResult : String → List Nat → Option XattrOsError

/-- `listxattr` of the POSIX adapter: the library's list with
`handleXattrErr` applied to its error (the list is nil on failure). -/
def listxattr (env : XattrEnv) : List String × Option XattrOsError :=
  match env.listResult with
  | .ok l => (l, handleXattrErr none)
  | .error e => ([], handleXattrErr (some e))

/-- `getxattr` of the POSIX adapter. -/
def getxattr (env : XattrEnv) (name : String) : List Nat × Option XattrOsError :=
  match env.getResult name with
  | .ok v => (v, handleXattrErr none)
  | .error e => ([], handleXattrErr (some e))

/-- `setxattr` of the POSIX adapter. -/
def setxattr (env : XattrEnv) (name : String) (dataBytes : List Nat) : Option XattrOsError :=
  handleXattrErr (env.setResult name dataBytes)

/-- `fillExtendedAttributes` of the POSIX adapter: list the names (failing
only when `listxattr`'s normalized error is non-nil), then fetch each value;
a fetch failure is printed to stderr and that attribute is skipped. -/
def Node.fillExtendedAttributes (node : Node) (env : XattrEnv) :
    Node × Option XattrOsError :=
  let lr := listxattr env
  match lr.2 with
  | some e => (node, some e)
  | none =>
    let eas := lr.1.foldl (fun acc attrName =>
      let gr := getxattr env attrName
      match gr.2 with
      | some _ => acc
      | none => acc ++ [(⟨attrName, gr.1⟩ : Attribute)]) []
    ({ node with ExtendedAttributes := eas }, none)

/-- The loop of `restoreExtendedAttributes` of the POSIX adapter: set each
attribute in order, returning the first non-nil normalized error. -/
def restoreExtendedAttributesLoop (env : XattrEnv) : List Attribute → Option XattrOsError
  | [] => none
  | a :: rest =>
    match setxattr env a.Name a.Value with
    | some e => some e
    | none => restoreExtendedAttributesLoop env rest

/-- `restoreExtendedAttributes` of the POSIX adapter. -/
def Node.restoreExtendedAttributes (node : Node) (env : XattrEnv) : Option XattrOsError :=
  restoreExtendedAttributesLoop env node.ExtendedAttributes

end Restic

namespace Fs

example :
    DecodeExtendedAttributes
        ((EncodeExtendedAttributes [⟨[65, 66], [1, 2, 3], 7⟩]).toOption.getD []) =
      .ok [⟨[65, 66], [1, 2, 3], 7⟩] := by decide

example :
    DecodeExtendedAttributes
        ((EncodeExtendedAttributes [⟨[65], [1], 0⟩, ⟨[66, 67], [], 1⟩]).toOption.getD []) =
      .ok [⟨[65], [1], 0⟩, ⟨[66, 67], [], 1⟩] := by decide

example :
    EncodeExtendedAttributes [⟨List.replicate 256 65, [], 0⟩] = .error .nameTooLarge := by
  decide

theorem readU32_u32le (x : Nat) (hx : x < 4294967296) :
    readU32 (x % 256) (x / 256 % 256) (x / 65536 % 256) (x / 16777216 % 256) = x := by
  unfold readU32; omega

theorem readU16_u16le (x : Nat) (hx : x < 65536) :
    readU16 (x % 256) (x / 256 % 256) = x := by
  unfold readU16; omega

theorem writeEaBytes_length (ea : ExtendedAttribute) (last : Bool) :
    (writeEaBytes ea last).length
      = (fileFullEaInformationSize + ea.Name.length + 1 + ea.Value.length + 3) / 4 * 4 := by
  simp [writeEaBytes, u32le, u16le, fileFullEaInformationSize]
  omega

/-- `parseEa` on a buffer that begins with one well-formed record: it returns
exactly the record's name, value and flags byte, and the rest of the buffer
after the record when `NextEntryOffset` is non-zero. -/
theorem parseEa_record (name value pad rest : List Nat) (flags nxt : Nat)
    (hv : value.length ≤ 65535)
    (hnxt_lt : nxt < 4294967296)
    (hnxt_val : nxt = 0 ∨ nxt = 9 + name.length + value.length + pad.length) :
    parseEa (nxt % 256 :: nxt / 256 % 256 :: nxt / 65536 % 256 :: nxt / 16777216 % 256 ::
             flags :: name.length :: value.length % 256 :: value.length / 256 % 256 ::
             (name ++ 0 :: (value ++ (pad ++ rest))))
      = .ok (⟨name, value, flags⟩, if nxt = 0 then [] else rest) := by
  set b := (nxt % 256 :: nxt / 256 % 256 :: nxt / 65536 % 256 :: nxt / 16777216 % 256 ::
             flags :: name.length :: value.length % 256 :: value.length / 256 % 256 ::
             (name ++ 0 :: (value ++ (pad ++ rest)))) with hb_def
  have hblen : b.length = 9 + name.length + value.length + pad.length + rest.length := by
    simp [hb_def]; omega
  have hg0 : b.getD 0 0 = nxt % 256 := rfl
  have hg1 : b.getD 1 0 = nxt / 256 % 256 := rfl
  have hg2 : b.getD 2 0 = nxt / 65536 % 256 := rfl
  have hg3 : b.getD 3 0 = nxt / 16777216 % 256 := rfl
  have hg4 : b.getD 4 0 = flags := rfl
  have hg5 : b.getD 5 0 = name.length := rfl
  have hg6 : b.getD 6 0 = value.length % 256 := rfl
  have hg7 : b.getD 7 0 = value.length / 256 % 256 := rfl
  have hdrop8 : b.drop 8 = name ++ 0 :: (value ++ (pad ++ rest)) := rfl
  have hdropv : b.drop (8 + name.length + 1) = value ++ (pad ++ rest) := by
    have h1 : ((b.drop 8).drop name.length).drop 1 = b.drop (8 + name.length + 1) := by
      rw [List.drop_drop, List.drop_drop,
        show 8 + (name.length + 1) = 8 + name.length + 1 by omega]
    rw [← h1, hdrop8, List.drop_left]
    rfl
  simp only [parseEa, fileFullEaInformationSize, hg0, hg1, hg2, hg3, hg4, hg5, hg6, hg7,
    readU32_u32le nxt hnxt_lt, readU16_u16le value.length (by omega), hdrop8, hdropv]
  rw [if_neg (by omega), if_neg (by omega), List.take_left' rfl, List.take_left' rfl]
  rcases hnxt_val with h0 | hval
  · subst h0
    simp
  · have hne : nxt ≠ 0 := by omega
    rw [if_pos hne, if_neg hne]
    have hsplit : b = (nxt % 256 :: nxt / 256 % 256 :: nxt / 65536 % 256 ::
        nxt / 16777216 % 256 :: flags :: name.length :: value.length % 256 ::
        value.length / 256 % 256 :: (name ++ 0 :: (value ++ pad))) ++ rest := by
      simp [hb_def]
    have hplen : (nxt % 256 :: nxt / 256 % 256 :: nxt / 65536 % 256 ::
        nxt / 16777216 % 256 :: flags :: name.length :: value.length % 256 ::
        value.length / 256 % 256 :: (name ++ 0 :: (value ++ pad))).length = nxt := by
      simp; omega
    rw [hsplit, List.drop_left' hplen]

/-- `parseEa` inverts `writeEaBytes` on a valid attribute, leaving exactly the
trailing buffer when the record is not the last one. -/
theorem parseEa_writeEaBytes (ea : ExtendedAttribute) (last : Bool) (rest : List Nat)
    (hn : ea.Name.length ≤ 255) (hv : ea.Value.length ≤ 65535) (hf : ea.Flags < 256) :
    parseEa (writeEaBytes ea last ++ rest)
      = .ok (ea, if last then [] else rest) := by
  obtain ⟨name, value, flags⟩ := ea
  simp only at hn hv hf
  have hentry : 8 + name.length + 1 + value.length
      ≤ (8 + name.length + 1 + value.length + 3) / 4 * 4 := by omega
  set wp := (8 + name.length + 1 + value.length + 3) / 4 * 4 with hwp_def
  set nxt := (if last then (0 : Nat) else wp) with hnxt_def
  have hshape : writeEaBytes ⟨name, value, flags⟩ last ++ rest
      = nxt % 256 :: nxt / 256 % 256 :: nxt / 65536 % 256 :: nxt / 16777216 % 256 ::
        flags :: name.length :: value.length % 256 :: value.length / 256 % 256 ::
        (name ++ 0 :: (value ++ (List.replicate (wp - (8 + name.length + 1 + value.length)) 0
          ++ rest))) := by
    simp [writeEaBytes, u32le, u16le, fileFullEaInformationSize,
      Nat.mod_eq_of_lt hf, Nat.mod_eq_of_lt (show name.length < 256 by omega)]
  have hnxt_lt : nxt < 4294967296 := by
    rw [hnxt_def]; cases last
    · simp
      omega
    · simp
  have hnxt_val : nxt = 0 ∨ nxt = 9 + name.length + value.length
      + (List.replicate (wp - (8 + name.length + 1 + value.length)) (0 : Nat)).length := by
    rw [hnxt_def]; cases last
    · right; simp; omega
    · left; simp
  rw [hshape, parseEa_record name value _ rest flags nxt hv hnxt_lt hnxt_val]
  rw [hnxt_def]
  cases last
  · have : wp ≠ 0 := by omega
    simp [this]
  · simp

/-- Inverting `writeEa`: success forces the size checks to have passed and
pins down the produced bytes. -/
theorem writeEa_ok (ea : ExtendedAttribute) (last : Bool) (bs : List Nat)
    (h : writeEa ea last = .ok bs) :
    ea.Name.length ≤ 255 ∧ ea.Value.length ≤ 65535 ∧ bs = writeEaBytes ea last := by
  unfold writeEa at h
  split at h
  · exact absurd h (by simp)
  · split at h
    · exact absurd h (by simp)
    · refine ⟨by omega, by omega, by injection h with h2; exact h2.symm⟩

/-- With sufficient fuel, the decode loop inverts a successful encoding, for
attribute lists whose flags fit a `uint8` (as Go's type system guarantees). -/
theorem decodeLoop_encode (eas : List ExtendedAttribute) (buf : List Nat) (fuel : Nat)
    (hflags : ∀ ea ∈ eas, ea.Flags < 256)
    (henc : EncodeExtendedAttributes eas = .ok buf)
    (hfuel : buf.length < fuel) :
    decodeLoop fuel buf = .ok eas := by
  induction eas generalizing buf fuel with
  | nil =>
    simp only [EncodeExtendedAttributes] at henc
    injection henc with h
    subst h
    cases fuel with
    | zero => omega
    | succ f => simp [decodeLoop]
  | cons ea rest ih =>
    cases rest with
    | nil =>
      simp only [EncodeExtendedAttributes] at henc
      obtain ⟨hn, hv, hbs⟩ := writeEa_ok ea true buf henc
      have hf : ea.Flags < 256 := hflags ea (by simp)
      have hblen : buf.length = (8 + ea.Name.length + 1 + ea.Value.length + 3) / 4 * 4 := by
        rw [hbs, writeEaBytes_length]; rfl
      cases fuel with
      | zero => omega
      | succ f =>
        have hne : buf ≠ [] := by
          intro h
          rw [h] at hblen
          simp at hblen
          omega
        have hparse : parseEa buf = .ok (ea, []) := by
          have h2 := parseEa_writeEaBytes ea true [] hn hv hf
          rw [List.append_nil] at h2
          rw [hbs]
          simpa using h2
        cases f with
        | zero => omega
        | succ f2 =>
          simp only [decodeLoop, if_neg hne, hparse]
          simp
    | cons ea2 rest2 =>
      simp only [EncodeExtendedAttributes] at henc
      split at henc
      · exact absurd henc (by simp)
      · rename_i bs hw
        split at henc
        · exact absurd henc (by simp)
        · rename_i bs2 henc2
          injection henc with hbuf
          obtain ⟨hn, hv, hbs⟩ := writeEa_ok ea false bs hw
          have hf : ea.Flags < 256 := hflags ea (by simp)
          have hwplen : bs.length = (8 + ea.Name.length + 1 + ea.Value.length + 3) / 4 * 4 := by
            rw [hbs, writeEaBytes_length]; rfl
          subst hbuf
          cases fuel with
          | zero => simp at hfuel
          | succ f =>
            have hne : bs ++ bs2 ≠ [] := by
              intro h
              have h3 := congrArg List.length h
              simp only [List.length_append, List.length_nil] at h3
              omega
            have hparse : parseEa (bs ++ bs2) = .ok (ea, bs2) := by
              rw [hbs]
              have h2 := parseEa_writeEaBytes ea false bs2 hn hv hf
              simpa using h2
            rw [List.length_append] at hfuel
            have hrest : decodeLoop f bs2 = .ok (ea2 :: rest2) :=
              ih bs2 f (fun x hx => hflags x (by simp [hx])) henc2 (by omega)
            simp only [decodeLoop, if_neg hne, hparse, hrest]

/-- A valid attribute list always encodes successfully. -/
theorem encode_ok (eas : List ExtendedAttribute)
    (h : ∀ ea ∈ eas, ea.Name.length ≤ 255 ∧ ea.Value.length ≤ 65535) :
    ∃ buf, EncodeExtendedAttributes eas = .ok buf := by
  induction eas with
  | nil => exact ⟨[], rfl⟩
  | cons ea rest ih =>
    have hea := h ea (by simp)
    have hwname : ea.Name.length % 256 = ea.Name.length := Nat.mod_eq_of_lt (by omega)
    have hwval : ea.Value.length % 65536 = ea.Value.length := Nat.mod_eq_of_lt (by omega)
    cases rest with
    | nil =>
      refine ⟨writeEaBytes ea true, ?_⟩
      simp [EncodeExtendedAttributes, writeEa, hwname, hwval]
    | cons ea2 rest2 =>
      obtain ⟨buf2, hbuf2⟩ := ih (fun x hx => h x (by simp [hx]))
      refine ⟨writeEaBytes ea false ++ buf2, ?_⟩
      simp only [EncodeExtendedAttributes, writeEa, hwname, hwval]
      simp [hbuf2]

/-- An over-long name makes `writeEa` fail with `errEaNameTooLarge`, whether
or not the record is the last one. -/
theorem writeEa_name_too_large (ea : ExtendedAttribute) (last : Bool)
    (h : 256 ≤ ea.Name.length) : writeEa ea last = .error .nameTooLarge := by
  unfold writeEa
  rw [if_pos (by omega)]

/-- An over-long value (with an acceptable name) makes `writeEa` fail with
`errEaValueTooLarge`. -/
theorem writeEa_value_too_large (ea : ExtendedAttribute) (last : Bool)
    (hn : ea.Name.length ≤ 255) (h : 65536 ≤ ea.Value.length) :
    writeEa ea last = .error .valueTooLarge := by
  unfold writeEa
  rw [if_neg (by omega), if_pos (by omega)]

/-- If the head attribute fails `writeEa` with the same error for either
`last` flag, the whole encoding fails with that error. -/
theorem encode_cons_error (ea : ExtendedAttribute) (l : List ExtendedAttribute)
    (er : EaError) (h : ∀ last, writeEa ea last = .error er) :
    EncodeExtendedAttributes (ea :: l) = .error er := by
  cases l with
  | nil => simpa [EncodeExtendedAttributes] using h true
  | cons x xs => simp [EncodeExtendedAttributes, h false]

/-- A size-acceptable head attribute passes the error of the remaining
encoding through. -/
theorem encode_cons_propagates (ea : ExtendedAttribute) (x : ExtendedAttribute)
    (xs : List ExtendedAttribute) (er : EaError)
    (hn : ea.Name.length ≤ 255) (hv : ea.Value.length ≤ 65535)
    (h : EncodeExtendedAttributes (x :: xs) = .error er) :
    EncodeExtendedAttributes (ea :: x :: xs) = .error er := by
  have hw : writeEa ea false = .ok (writeEaBytes ea false) := by
    unfold writeEa
    rw [if_neg (by omega), if_neg (by omega)]
  simp [EncodeExtendedAttributes, hw, h]

/-- Any list containing an over-long name, with size-acceptable attributes
before it, fails encoding with `errEaNameTooLarge`. -/
theorem encode_name_too_large (pre post : List ExtendedAttribute) (ea : ExtendedAttribute)
    (hpre : ∀ e ∈ pre, e.Name.length ≤ 255 ∧ e.Value.length ≤ 65535)
    (hname : 256 ≤ ea.Name.length) :
    EncodeExtendedAttributes (pre ++ ea :: post) = .error .nameTooLarge := by
  induction pre with
  | nil => exact encode_cons_error ea post _ (fun last => writeEa_name_too_large ea last hname)
  | cons p pre2 ih =>
    have hp := hpre p (by simp)
    have hrec := ih (fun e he => hpre e (by simp [he]))
    rcases hl : pre2 ++ ea :: post with _ | ⟨q, l2⟩
    · exact absurd hl (by simp)
    · rw [List.cons_append, hl]
      rw [hl] at hrec
      exact encode_cons_propagates p q l2 _ hp.1 hp.2 hrec

/-- Every buffer length probed by the query loop is the starting length times
a power of two: the `i`-th probe uses `bufLen * 2 ^ i`. -/
theorem getFileEALoop_sizes (replies : List EaQueryReply) (bufLen : Nat)
    (sizes : List Nat) (res : Except GetEaError (List ExtendedAttribute))
    (h : getFileEALoop replies bufLen = some (sizes, res)) :
    ∀ i, (hi : i < sizes.length) → sizes.get ⟨i, hi⟩ = bufLen * 2 ^ i := by
  induction replies generalizing bufLen sizes res with
  | nil => simp [getFileEALoop] at h
  | cons r rs ih =>
    cases r with
    | noEas =>
      simp only [getFileEALoop] at h
      injection h with h2
      injection h2 with hs hr
      subst hs
      intro i hi
      have hi1 : i = 0 := by
        simp only [List.length_cons, List.length_nil] at hi
        omega
      subst hi1
      simp
    | success buf =>
      simp only [getFileEALoop] at h
      injection h with h2
      injection h2 with hs hr
      subst hs
      intro i hi
      have hi1 : i = 0 := by
        simp only [List.length_cons, List.length_nil] at hi
        omega
      subst hi1
      simp
    | otherError =>
      simp only [getFileEALoop] at h
      injection h with h2
      injection h2 with hs hr
      subst hs
      intro i hi
      have hi1 : i = 0 := by
        simp only [List.length_cons, List.length_nil] at hi
        omega
      subst hi1
      simp
    | insufficientBuffer =>
      simp only [getFileEALoop] at h
      split at h
      · exact absurd h (by simp)
      · rename_i sizes2 res2 hrec
        injection h with h2
        injection h2 with hs hr
        subst hs
        intro i hi
        cases i with
        | zero => simp
        | succ j =>
          have := ih (bufLen * 2) sizes2 res2 hrec j (by simpa using hi)
          simp only [List.get_cons_succ]
          rw [this]
          ring
    | moreData =>
      simp only [getFileEALoop] at h
      split at h
      · exact absurd h (by simp)
      · rename_i sizes2 res2 hrec
        injection h with h2
        injection h2 with hs hr
        subst hs
        intro i hi
        cases i with
        | zero => simp
        | succ j =>
          have := ih (bufLen * 2) sizes2 res2 hrec j (by simpa using hi)
          simp only [List.get_cons_succ]
          rw [this]
          ring

/-- A run of `n` insufficient-buffer replies followed by the no-attributes
status probes exactly `n + 1` times, with strictly doubling lengths, and ends
in the empty successful result. -/
theorem getFileEALoop_growth (n : Nat) (bufLen : Nat) :
    getFileEALoop (List.replicate n .insufficientBuffer ++ [.noEas]) bufLen
      = some ((List.range (n + 1)).map (fun i => bufLen * 2 ^ i), .ok []) := by
  induction n generalizing bufLen with
  | zero =>
    simp [getFileEALoop, List.range_succ]
  | succ m ih =>
    rw [List.replicate_succ, List.cons_append]
    have hlist : (List.range (m + 1 + 1)).map (fun i => bufLen * 2 ^ i)
        = bufLen :: (List.range (m + 1)).map (fun i => bufLen * 2 * 2 ^ i) := by
      rw [List.range_succ_eq_map]
      simp only [List.map_cons, List.map_map]
      congr 1
      · simp
      · apply List.map_congr_left
        intro i hi
        show bufLen * 2 ^ (i + 1) = bufLen * 2 * 2 ^ i
        rw [Nat.pow_succ]
        ring
    simp only [getFileEALoop, ih (bufLen * 2), hlist]

/-- Any list containing an over-long value on an attribute whose name is
acceptable, with size-acceptable attributes before it, fails encoding with
`errEaValueTooLarge`. -/
theorem encode_value_too_large (pre post : List ExtendedAttribute) (ea : ExtendedAttribute)
    (hpre : ∀ e ∈ pre, e.Name.length ≤ 255 ∧ e.Value.length ≤ 65535)
    (hn : ea.Name.length ≤ 255) (hval : 65536 ≤ ea.Value.length) :
    EncodeExtendedAttributes (pre ++ ea :: post) = .error .valueTooLarge := by
  induction pre with
  | nil => exact encode_cons_error ea post _ (fun last => writeEa_value_too_large ea last hn hval)
  | cons p pre2 ih =>
    have hp := hpre p (by simp)
    have hrec := ih (fun e he => hpre e (by simp [he]))
    rcases hl : pre2 ++ ea :: post with _ | ⟨q, l2⟩
    · exact absurd hl (by simp)
    · rw [List.cons_append, hl]
      rw [hl] at hrec
      exact encode_cons_propagates p q l2 _ hp.1 hp.2 hrec

end Fs

namespace Restic

/-- The error outcome of one `restoreGenericAttribute` dispatch does not
depend on the warned-set state: the set only controls diagnostics. -/
theorem restoreGenericAttribute_err_const (attr : Attribute) (env : AttrEnv)
    (w w' : List String) :
    (restoreGenericAttribute attr env w).2.2 = (restoreGenericAttribute attr env w').2.2 := by
  unfold restoreGenericAttribute
  by_cases h1 : attr.Name = TypeFileAttribute
  · simp [h1]
  · by_cases h2 : attr.Name = TypeCreationTime
    · simp [h1, h2, TypeFileAttribute, TypeCreationTime]
    · by_cases h3 : attr.Name = TypeSecurityDescriptor
      · simp [h1, h2, h3, TypeFileAttribute, TypeCreationTime, TypeSecurityDescriptor]
      · simp [h1, h2, h3]

/-- The restore loop collects exactly the per-attribute failures, in order,
independently of the warned-set threading and of failures of earlier
attributes. -/
theorem restoreGenericAttributesLoop_errs (l : List (Attribute × AttrEnv))
    (w : List String) :
    (restoreGenericAttributesLoop l w).2
      = l.filterMap (fun p => (restoreGenericAttribute p.1 p.2 []).2.2) := by
  induction l generalizing w with
  | nil => simp [restoreGenericAttributesLoop]
  | cons p rest ih =>
    obtain ⟨attr, env⟩ := p
    simp only [restoreGenericAttributesLoop, List.filterMap_cons]
    rw [ih]
    rw [restoreGenericAttribute_err_const attr env w []]
    cases h : (restoreGenericAttribute attr env []).2.2 <;> simp

end Restic

/-- C1: for every list of extended attributes in which each name is at most
255 bytes and each value is at most 65535 bytes (`Flags` is a Go `uint8`,
hence below 256), `DecodeExtendedAttributes` applied to the buffer produced
by `EncodeExtendedAttributes` returns a list equal to the original in name,
value and flags, in the original order. -/
theorem C1_decode_encode_roundtrip (eas : List Fs.ExtendedAttribute)
    (hvalid : ∀ ea ∈ eas,
      ea.Name.length ≤ 255 ∧ ea.Value.length ≤ 65535 ∧ ea.Flags < 256) :
    ∃ buf, Fs.EncodeExtendedAttributes eas = .ok buf ∧
      Fs.DecodeExtendedAttributes buf = .ok eas := by
  obtain ⟨buf, hbuf⟩ :=
    Fs.encode_ok eas (fun ea h => ⟨(hvalid ea h).1, (hvalid ea h).2.1⟩)
  exact ⟨buf, hbuf,
    Fs.decodeLoop_encode eas buf (buf.length + 1)
      (fun ea h => (hvalid ea h).2.2) hbuf (by omega)⟩

/-- Witness for C1 at a concrete two-attribute list. -/
theorem C1_decode_encode_roundtrip_witness :
    (∀ ea ∈ [(⟨[65], [1, 2], 3⟩ : Fs.ExtendedAttribute), ⟨[66, 67], [], 255⟩],
      ea.Name.length ≤ 255 ∧ ea.Value.length ≤ 65535 ∧ ea.Flags < 256) ∧
    (∃ buf, Fs.EncodeExtendedAttributes
          [(⟨[65], [1, 2], 3⟩ : Fs.ExtendedAttribute), ⟨[66, 67], [], 255⟩] = .ok buf ∧
      Fs.DecodeExtendedAttributes buf
        = .ok [(⟨[65], [1, 2], 3⟩ : Fs.ExtendedAttribute), ⟨[66, 67], [], 255⟩]) :=
  ⟨by decide, C1_decode_encode_roundtrip _ (by decide)⟩

/-- C5: encoding a list containing a name of 256 bytes (any size-acceptable
attributes before it) fails with `errEaNameTooLarge`, and one containing a
value of 65536 bytes (on an attribute whose name is within bounds) fails with
`errEaValueTooLarge`; in either case the code runs `return nil, err`, the
`.error` outcome carrying no partial buffer. -/
theorem C5_encode_rejects_oversize :
    (∀ (pre post : List Fs.ExtendedAttribute) (ea : Fs.ExtendedAttribute),
      (∀ e ∈ pre, e.Name.length ≤ 255 ∧ e.Value.length ≤ 65535) →
      ea.Name.length = 256 →
      Fs.EncodeExtendedAttributes (pre ++ ea :: post) = .error .nameTooLarge) ∧
    (∀ (pre post : List Fs.ExtendedAttribute) (ea : Fs.ExtendedAttribute),
      (∀ e ∈ pre, e.Name.length ≤ 255 ∧ e.Value.length ≤ 65535) →
      ea.Name.length ≤ 255 → ea.Value.length = 65536 →
      Fs.EncodeExtendedAttributes (pre ++ ea :: post) = .error .valueTooLarge) :=
  ⟨fun pre post ea hpre hn =>
    Fs.encode_name_too_large pre post ea hpre (by omega),
   fun pre post ea hpre hn hv =>
    Fs.encode_value_too_large pre post ea hpre hn (by omega)⟩

/-- Witness for C5 at singleton lists with a 256-byte name and a 65536-byte
value respectively. -/
theorem C5_encode_rejects_oversize_witness :
    Fs.EncodeExtendedAttributes [⟨List.replicate 256 65, [], 0⟩]
        = .error .nameTooLarge ∧
    Fs.EncodeExtendedAttributes [⟨[65], List.replicate 65536 66, 0⟩]
        = .error .valueTooLarge := by
  constructor
  · have h := C5_encode_rejects_oversize.1 [] [] ⟨List.replicate 256 65, [], 0⟩
      (by intro e he; exact absurd he (by simp))
      (by show (List.replicate 256 65).length = 256; rw [List.length_replicate])
    simpa only [List.nil_append] using h
  · have h := C5_encode_rejects_oversize.2 [] [] ⟨[65], List.replicate 65536 66, 0⟩
      (by intro e he; exact absurd he (by simp))
      (by show ([65] : List Nat).length ≤ 255; simp)
      (by show (List.replicate 65536 66).length = 65536; rw [List.length_replicate])
    simpa only [List.nil_append] using h

/-- C6: the query buffer starts at 1024 bytes and the `i`-th probe uses
exactly `1024 * 2 ^ i` bytes (strict doubling on each insufficient-buffer or
more-data status); there is no other bound — a run of `n` such statuses
yields `n + 1` probes for every `n`; and the distinguished no-attributes
status yields the empty result with a nil error after the current probe,
never retried. -/
theorem C6_probe_growth :
    (∀ (replies : List Fs.EaQueryReply) (sizes : List Nat)
        (res : Except Fs.GetEaError (List Fs.ExtendedAttribute)),
      Fs.GetFileEA replies = some (sizes, res) →
      ∀ i, (hi : i < sizes.length) → sizes.get ⟨i, hi⟩ = 1024 * 2 ^ i) ∧
    (∀ n, Fs.GetFileEA (List.replicate n .insufficientBuffer ++ [.noEas])
        = some ((List.range (n + 1)).map (fun i => 1024 * 2 ^ i), .ok [])) ∧
    (∀ rs, Fs.GetFileEA (.noEas :: rs) = some ([1024], .ok [])) :=
  ⟨fun replies sizes res h => Fs.getFileEALoop_sizes replies 1024 sizes res h,
   fun n => Fs.getFileEALoop_growth n 1024,
   fun _ => rfl⟩

/-- Witness for C6: one insufficient-buffer and one more-data status double
the probe twice; the third probe is 4096 bytes. -/
theorem C6_probe_growth_witness :
    Fs.GetFileEA [.insufficientBuffer, .moreData, .noEas]
        = some ([1024, 2048, 4096], .ok []) ∧
    ([1024, 2048, 4096] : List Nat).get ⟨2, by decide⟩ = 1024 * 2 ^ 2 :=
  ⟨by rfl,
   C6_probe_growth.1 [.insufficientBuffer, .moreData, .noEas]
     [1024, 2048, 4096] (.ok []) (by rfl) 2 (by decide)⟩

/-- C2 as stated is false on the current `fillGenericAttributes`
(`internal/restic/node_windows.go`): for the drive root `C:\`
(`filepath.Base "C:\"` is `\`, which contains no colon, and
`filepath.Clean "C:\"` is `C:\`, which ends with a backslash) the function
returns `allowExtended = true`, not `false`. -/
theorem C2_pseudo_paths_counterexample :
    (Restic.Node.fillGenericAttributes ⟨"C:\\", "dir", [], []⟩
        ⟨false, true, 0, none, .error .other⟩).2.1 = true := by
  decide

/-- C2 amended: an ADS path (base contains a colon) makes the current
`fillGenericAttributes` return `allowExtended = false` with a nil error and
no captured attributes; a drive root returns a nil error and captures no
file-attribute or creation-time attribute (anything appended is a security
descriptor), but returns `allowExtended = true`; the older variant
(`src/unnamed/part_002`) returns `allowExtended = false` with no capture and
no error for both pseudo-path kinds. -/
theorem C2_pseudo_paths (node : Restic.Node) (env : Restic.FillEnv) :
    (env.baseHasColon = true →
      node.fillGenericAttributes env = (node, false, none)) ∧
    (env.baseHasColon = false → env.cleanEndsBackslash = true →
      (node.fillGenericAttributes env).2.1 = true ∧
      (node.fillGenericAttributes env).2.2 = none ∧
      ∃ sdpart, (node.fillGenericAttributes env).1.GenericAttributes
          = node.GenericAttributes ++ sdpart ∧
        ∀ a ∈ sdpart, a.Name = Restic.TypeSecurityDescriptor) ∧
    ((env.baseHasColon = true ∨ env.cleanEndsBackslash = true) →
      node.fillGenericAttributesOld env = (node, false, none)) := by
  refine ⟨?_, ?_, ?_⟩
  · intro h
    unfold Restic.Node.fillGenericAttributes
    simp [h]
  · intro h1 h2
    unfold Restic.Node.fillGenericAttributes
    simp only [h1, h2, Bool.false_eq_true, if_false, not_true, if_neg, ite_false]
    by_cases ht : node.NodeType = "file" ∨ node.NodeType = "dir"
    · rcases hs : env.sdResult with e | sd
      · simp [ht, hs, Restic.getSecurityDescriptor]
      · by_cases hsd : sd = []
        · simp [ht, hs, hsd, Restic.getSecurityDescriptor,
            Restic.Node.appendGenericAttribute]
        · refine ⟨by simp [ht, hs, hsd, Restic.getSecurityDescriptor], ?_, ?_⟩
          · simp [ht, hs, hsd, Restic.getSecurityDescriptor]
          · refine ⟨[Restic.NewGenericAttribute Restic.TypeSecurityDescriptor sd], ?_, ?_⟩
            · simp [ht, hs, hsd, Restic.getSecurityDescriptor,
                Restic.Node.appendGenericAttribute, Restic.NewGenericAttribute,
                Restic.TypeSecurityDescriptor]
            · intro a ha
              simp at ha
              simp [ha, Restic.NewGenericAttribute]
    · simp [ht]
  · intro h
    unfold Restic.Node.fillGenericAttributesOld
    rcases h with h | h <;> simp [h]

/-- Witness for the amended C2 at an ADS path, a drive root, and the older
variant. -/
theorem C2_pseudo_paths_witness :
    Restic.Node.fillGenericAttributes ⟨"a:s", "file", [], []⟩
        ⟨true, false, 0, none, .ok []⟩ = (⟨"a:s", "file", [], []⟩, false, none) ∧
    ((Restic.Node.fillGenericAttributes ⟨"C:\\", "dir", [], []⟩
        ⟨false, true, 0, none, .ok [7]⟩).2.1 = true ∧
     (Restic.Node.fillGenericAttributes ⟨"C:\\", "dir", [], []⟩
        ⟨false, true, 0, none, .ok [7]⟩).2.2 = none ∧
     ∃ sdpart, (Restic.Node.fillGenericAttributes ⟨"C:\\", "dir", [], []⟩
          ⟨false, true, 0, none, .ok [7]⟩).1.GenericAttributes
        = ([] : List Restic.Attribute) ++ sdpart ∧
       ∀ a ∈ sdpart, a.Name = Restic.TypeSecurityDescriptor) ∧
    Restic.Node.fillGenericAttributesOld ⟨"C:\\", "dir", [], []⟩
        ⟨false, true, 0, none, .ok [7]⟩ = (⟨"C:\\", "dir", [], []⟩, false, none) :=
  ⟨(C2_pseudo_paths ⟨"a:s", "file", [], []⟩ ⟨true, false, 0, none, .ok []⟩).1 rfl,
   (C2_pseudo_paths ⟨"C:\\", "dir", [], []⟩ ⟨false, true, 0, none, .ok [7]⟩).2.1 rfl rfl,
   (C2_pseudo_paths ⟨"C:\\", "dir", [], []⟩ ⟨false, true, 0, none, .ok [7]⟩).2.2
     (Or.inr rfl)⟩

/-- C3 as stated is false on the code: with the desired bits containing the
encrypted flag, the first `EncryptFile` access-denied, `ClearSystem`
succeeding and the retried `EncryptFile` still failing,
`fixEncryptionAttribute` reports the failure, yet `handleFileAttributes`
returns nil — the failure is only passed to `debug.Log` and the returned
error is that of `SetFileAttributes`, which succeeded — so
`restoreGenericAttributes` aggregates no error for the node. -/
theorem C3_reconciliation_failure_counterexample :
    (Restic.fixEncryptionAttribute 16384
        ⟨some .accessDenied, some .other, none, none, none, .ok 0⟩).2
      = some (.encryptFailed .other) ∧
    (Restic.handleFileAttributes (Restic.UInt32ToBytes 16384)
        ⟨none, ⟨some .accessDenied, some .other, none, none, none, .ok 0⟩,
          none, none, none, none⟩).2 = none ∧
    (Restic.Node.restoreGenericAttributes
        ⟨"f", "file", [], [⟨Restic.TypeFileAttribute, Restic.UInt32ToBytes 16384⟩]⟩
        [⟨none, ⟨some .accessDenied, some .other, none, none, none, .ok 0⟩,
          none, none, none, none⟩] []).2 = none := by
  refine ⟨by decide, by decide, by decide⟩

/-- C3 amended: when the UTF-16 conversion succeeds, `handleFileAttributes`
returns exactly the `SetFileAttributes` outcome, whatever the encryption
reconciliation returned — a reconciliation failure, even after the single
clear-system retry, is only debug-logged and never becomes the
file-attribute restore error. -/
theorem C3_fix_error_only_logged (data : List Nat) (env : Restic.AttrEnv)
    (h : env.utf16 = none) :
    (Restic.handleFileAttributes data env).2
      = env.setFileAttributes.map .setAttributesFailed := by
  unfold Restic.handleFileAttributes
  rw [h]

/-- Witness for the amended C3: reconciliation fails after its retry while
`SetFileAttributes` also fails; the handler returns only the latter. -/
theorem C3_fix_error_only_logged_witness :
    (⟨none, ⟨some .accessDenied, some .other, none, none, none, .ok 0⟩,
        some .other, none, none, none⟩ : Restic.AttrEnv).utf16 = none ∧
    (Restic.handleFileAttributes (Restic.UInt32ToBytes 16384)
        ⟨none, ⟨some .accessDenied, some .other, none, none, none, .ok 0⟩,
          some .other, none, none, none⟩).2
      = some (.setAttributesFailed .other) :=
  ⟨rfl,
   C3_fix_error_only_logged (Restic.UInt32ToBytes 16384)
     ⟨none, ⟨some .accessDenied, some .other, none, none, none, .ok 0⟩,
       some .other, none, none, none⟩ rfl⟩

/-- C4 as stated is false on the code: with the desired bits encrypted and
the file already encrypted (the current attributes carry the flag),
`fixEncryptionAttribute` still invokes the encrypt primitive — the encrypt
branch never consults the current state. -/
theorem C4_matching_state_counterexample :
    (Restic.fixEncryptionAttribute Restic.FILE_ATTRIBUTE_ENCRYPTED
        ⟨none, none, none, none, none, .ok Restic.FILE_ATTRIBUTE_ENCRYPTED⟩).1
      = [.encrypt] := by
  decide

/-- C4 amended: the decrypt primitive runs only when the desired state is
unencrypted and the current state is encrypted, and nothing runs when both
are unencrypted; but when the desired state is encrypted the encrypt
primitive is invoked unconditionally, without reading the current state. -/
theorem C4_encryption_dispatch (attrs : Nat) (env : Restic.EncEnv) :
    (∀ existing, attrs &&& Restic.FILE_ATTRIBUTE_ENCRYPTED = 0 →
      env.getFileAttributes = .ok existing →
      existing &&& Restic.FILE_ATTRIBUTE_ENCRYPTED = 0 →
      (Restic.fixEncryptionAttribute attrs env).1.count .encrypt = 0 ∧
      (Restic.fixEncryptionAttribute attrs env).1.count .decrypt = 0) ∧
    (∀ existing, attrs &&& Restic.FILE_ATTRIBUTE_ENCRYPTED = 0 →
      env.getFileAttributes = .ok existing →
      existing &&& Restic.FILE_ATTRIBUTE_ENCRYPTED ≠ 0 →
      .decrypt ∈ (Restic.fixEncryptionAttribute attrs env).1) ∧
    (attrs &&& Restic.FILE_ATTRIBUTE_ENCRYPTED ≠ 0 →
      .encrypt ∈ (Restic.fixEncryptionAttribute attrs env).1) := by
  refine ⟨?_, ?_, ?_⟩
  · intro ex h1 h2 h3
    unfold Restic.fixEncryptionAttribute
    rw [if_neg (by omega)]
    simp only [h2]
    rw [if_neg (by omega)]
    exact ⟨rfl, rfl⟩
  · intro ex h1 h2 h3
    unfold Restic.fixEncryptionAttribute
    rw [if_neg (by omega)]
    simp only [h2]
    rw [if_pos h3]
    cases hd : env.decrypt1 with
    | none => simp
    | some e =>
      cases e with
      | accessDenied =>
        cases hc : env.clearSystem with
        | some e2 => simp [hc]
        | none =>
          cases hd2 : env.decrypt2 with
          | some e3 => simp [hc, hd2]
          | none => simp [hc, hd2]
      | other => simp
  · intro h
    unfold Restic.fixEncryptionAttribute
    rw [if_pos h]
    cases he1 : env.encrypt1 with
    | none => simp
    | some e =>
      cases e with
      | accessDenied =>
        cases hc : env.clearSystem with
        | some e2 => simp [hc]
        | none =>
          cases he2 : env.encrypt2 with
          | some e3 => simp [hc, he2]
          | none => simp [hc, he2]
      | other => simp

/-- Witness for the amended C4: desired and current both unencrypted invoke
no primitive; desired encrypted invokes the encrypt primitive. -/
theorem C4_encryption_dispatch_witness :
    ((Restic.fixEncryptionAttribute 0
        ⟨none, none, none, none, none, .ok 0⟩).1.count .encrypt = 0 ∧
     (Restic.fixEncryptionAttribute 0
        ⟨none, none, none, none, none, .ok 0⟩).1.count .decrypt = 0) ∧
    Restic.Prim.encrypt ∈ (Restic.fixEncryptionAttribute 16384
        ⟨none, none, none, none, none, .ok 0⟩).1 :=
  ⟨(C4_encryption_dispatch 0 ⟨none, none, none, none, none, .ok 0⟩).1 0 rfl rfl rfl,
   (C4_encryption_dispatch 16384 ⟨none, none, none, none, none, .ok 0⟩).2.2 (by decide)⟩

/-- C7: for a generic attribute whose type has no known handler, restore does
not fail: `restoreGenericAttribute` returns a nil error, the type is inserted
into the process-wide unknown-type set, and a diagnostic is emitted exactly
when the type was not already present. -/
theorem C7_unknown_type_tolerated (attr : Restic.Attribute) (env : Restic.AttrEnv)
    (warned : List String)
    (h1 : attr.Name ≠ Restic.TypeFileAttribute)
    (h2 : attr.Name ≠ Restic.TypeCreationTime)
    (h3 : attr.Name ≠ Restic.TypeSecurityDescriptor) :
    (Restic.restoreGenericAttribute attr env warned).2.2 = none ∧
    (Restic.restoreGenericAttribute attr env warned).1
      = (if attr.Name ∈ warned then warned else attr.Name :: warned) ∧
    ((Restic.restoreGenericAttribute attr env warned).2.1 = true ↔
      attr.Name ∉ warned) := by
  unfold Restic.restoreGenericAttribute Restic.handleUnknownGenericAttributeFound
  rw [if_neg h1, if_neg h2, if_neg h3]
  by_cases hm : attr.Name ∈ warned <;> simp [hm]

/-- Witness for C7 at the unrecognized type `vendor.experimental`, once with
an empty warned set (diagnostic emitted) — the set gains the type and the
handler reports no error. -/
theorem C7_unknown_type_tolerated_witness :
    (("vendor.experimental" : String) ≠ Restic.TypeFileAttribute ∧
     ("vendor.experimental" : String) ≠ Restic.TypeCreationTime ∧
     ("vendor.experimental" : String) ≠ Restic.TypeSecurityDescriptor) ∧
    ((Restic.restoreGenericAttribute ⟨"vendor.experimental", []⟩
        ⟨none, ⟨none, none, none, none, none, .ok 0⟩, none, none, none, none⟩
        []).2.2 = none ∧
     (Restic.restoreGenericAttribute ⟨"vendor.experimental", []⟩
        ⟨none, ⟨none, none, none, none, none, .ok 0⟩, none, none, none, none⟩
        []).1
       = (if ("vendor.experimental" : String) ∈ ([] : List String) then []
          else ["vendor.experimental"]) ∧
     ((Restic.restoreGenericAttribute ⟨"vendor.experimental", []⟩
        ⟨none, ⟨none, none, none, none, none, .ok 0⟩, none, none, none, none⟩
        []).2.1 = true ↔ ("vendor.experimental" : String) ∉ ([] : List String))) :=
  ⟨⟨by decide, by decide, by decide⟩,
   C7_unknown_type_tolerated ⟨"vendor.experimental", []⟩
     ⟨none, ⟨none, none, none, none, none, .ok 0⟩, none, none, none, none⟩ []
     (by decide) (by decide) (by decide)⟩

/-- C8: `restoreGenericAttributes` attempts every generic attribute — the
aggregate outcome equals `combineErrors` of the independently computed
per-attribute handler failures, in attribute order, so an earlier failure
never suppresses later attributes — and the outcome is nil exactly when no
per-attribute handler failed. -/
theorem C8_restore_aggregates (node : Restic.Node) (envs : List Restic.AttrEnv)
    (warned : List String) :
    (node.restoreGenericAttributes envs warned).2
      = Restic.combineErrors ((node.GenericAttributes.zip envs).filterMap
          (fun p => (Restic.restoreGenericAttribute p.1 p.2 []).2.2)) ∧
    ((node.restoreGenericAttributes envs warned).2 = none ↔
      ∀ p ∈ node.GenericAttributes.zip envs,
        (Restic.restoreGenericAttribute p.1 p.2 []).2.2 = none) := by
  have hcomb : ∀ errs : List Restic.HandlerError,
      (Restic.combineErrors errs = none ↔ errs = []) := by
    intro errs
    unfold Restic.combineErrors
    split <;> simp_all
  have heq : (node.restoreGenericAttributes envs warned).2
      = Restic.combineErrors ((node.GenericAttributes.zip envs).filterMap
          (fun p => (Restic.restoreGenericAttribute p.1 p.2 []).2.2)) := by
    simp only [Restic.Node.restoreGenericAttributes]
    rw [Restic.restoreGenericAttributesLoop_errs]
  refine ⟨heq, ?_⟩
  rw [heq, hcomb, List.filterMap_eq_nil_iff]

/-- C9: in the POSIX xattr adapter a not-supported (and, as on SMB/CIFS
mounts, a no-attribute) condition is normalized to success — enumeration
yields an empty attribute list and a nil error, setting an attribute is a
no-op success that continues with the remaining attributes — while every
other enumeration or set failure is returned to the caller. -/
theorem C9_xattr_normalization (node : Restic.Node) (env : Restic.XattrEnv) :
    (env.listResult = .error .notSupported →
      node.fillExtendedAttributes env = ({ node with ExtendedAttributes := [] }, none)) ∧
    (env.listResult = .error .noAttr →
      node.fillExtendedAttributes env = ({ node with ExtendedAttributes := [] }, none)) ∧
    (∀ e, env.listResult = .error e → e ≠ .notSupported → e ≠ .noAttr →
      node.fillExtendedAttributes env = (node, some e)) ∧
    (∀ (a : Restic.Attribute) (rest : List Restic.Attribute),
      (env.setResult a.Name a.Value = some .notSupported ∨
        env.setResult a.Name a.Value = some .noAttr) →
      Restic.restoreExtendedAttributesLoop env (a :: rest)
        = Restic.restoreExtendedAttributesLoop env rest) ∧
    (∀ (a : Restic.Attribute) (rest : List Restic.Attribute) (e : Restic.XattrOsError),
      env.setResult a.Name a.Value = some e → e ≠ .notSupported → e ≠ .noAttr →
      Restic.restoreExtendedAttributesLoop env (a :: rest) = some e) := by
  refine ⟨?_, ?_, ?_, ?_, ?_⟩
  · intro h
    unfold Restic.Node.fillExtendedAttributes Restic.listxattr
    simp [h, Restic.handleXattrErr]
  · intro h
    unfold Restic.Node.fillExtendedAttributes Restic.listxattr
    simp [h, Restic.handleXattrErr]
  · intro e h h1 h2
    unfold Restic.Node.fillExtendedAttributes Restic.listxattr
    cases e <;> simp_all [Restic.handleXattrErr]
  · intro a rest h
    conv_lhs => unfold Restic.restoreExtendedAttributesLoop
    rcases h with h | h <;> simp [Restic.setxattr, h, Restic.handleXattrErr]
  · intro a rest e h h1 h2
    unfold Restic.restoreExtendedAttributesLoop Restic.setxattr
    cases e <;> simp_all [Restic.handleXattrErr]

/-- Witness for C9: a not-supported enumeration yields the empty list without
error; a plain set failure on the first attribute is returned. -/
theorem C9_xattr_normalization_witness :
    ((⟨.error .notSupported, fun _ => .ok [], fun _ _ => none⟩ :
        Restic.XattrEnv).listResult = .error .notSupported ∧
     Restic.Node.fillExtendedAttributes ⟨"n", "file", [⟨"user.a", [1]⟩], []⟩
        ⟨.error .notSupported, fun _ => .ok [], fun _ _ => none⟩
       = (⟨"n", "file", [], []⟩, none)) ∧
    ((⟨.ok [], fun _ => .ok [], fun _ _ => some .plainError⟩ :
        Restic.XattrEnv).setResult "user.foo" [1] = some .plainError ∧
     Restic.restoreExtendedAttributesLoop
        ⟨.ok [], fun _ => .ok [], fun _ _ => some .plainError⟩
        [⟨"user.foo", [1]⟩] = some .plainError) :=
  ⟨⟨rfl,
    (C9_xattr_normalization ⟨"n", "file", [⟨"user.a", [1]⟩], []⟩
      ⟨.error .notSupported, fun _ => .ok [], fun _ _ => none⟩).1 rfl⟩,
   ⟨rfl,
    (C9_xattr_normalization ⟨"x", "file", [], []⟩
      ⟨.ok [], fun _ => .ok [], fun _ _ => some .plainError⟩).2.2.2.2
      ⟨"user.foo", [1]⟩ [] .plainError rfl (by decide) (by decide)⟩⟩

/-- C10: the Windows `fillGenericAttributes` returns a nil error for every
input (the inner `sd, err := ...` shadows the named return, which stays nil)
— in particular, when security-descriptor retrieval fails for a file node,
the failure is dropped and the node keeps exactly the already-captured
file-attribute and creation-time attributes, gaining no security-descriptor
attribute. -/
theorem C10_fill_never_errors (node : Restic.Node) (env : Restic.FillEnv) :
    (node.fillGenericAttributes env).2.2 = none ∧
    (∀ e low high, env.baseHasColon = false → env.cleanEndsBackslash = false →
      node.NodeType = "file" → env.sdResult = .error e →
      env.creationTime = some (low, high) →
      (node.fillGenericAttributes env).1.GenericAttributes
        = node.GenericAttributes
          ++ [Restic.getFileAttributes env.fileAttributes,
              Restic.GetCreationTime (some (low, high))]) := by
  constructor
  · unfold Restic.Node.fillGenericAttributes
    by_cases h : env.baseHasColon <;> simp [h]
  · intro e low high h1 h2 h3 h4 h5
    unfold Restic.Node.fillGenericAttributes
    simp [h1, h2, h3, h4, h5, Restic.getSecurityDescriptor,
      Restic.Node.appendGenericAttribute, Restic.getFileAttributes,
      Restic.GetCreationTime, Restic.NewGenericAttribute,
      Restic.TypeFileAttribute, Restic.TypeCreationTime]

/-- Witness for C10 on a file node whose security-descriptor retrieval
fails: the error is dropped and the captured attributes remain. -/
theorem C10_fill_never_errors_witness :
    (Restic.Node.fillGenericAttributes ⟨"f", "file", [], []⟩
        ⟨false, false, 7, some (1, 2), .error .other⟩).2.2 = none ∧
    (Restic.Node.fillGenericAttributes ⟨"f", "file", [], []⟩
        ⟨false, false, 7, some (1, 2), .error .other⟩).1.GenericAttributes
      = ([] : List Restic.Attribute)
        ++ [Restic.getFileAttributes 7, Restic.GetCreationTime (some (1, 2))] :=
  ⟨(C10_fill_never_errors ⟨"f", "file", [], []⟩
      ⟨false, false, 7, some (1, 2), .error .other⟩).1,
   (C10_fill_never_errors ⟨"f", "file", [], []⟩
      ⟨false, false, 7, some (1, 2), .error .other⟩).2 .other 1 2 rfl rfl rfl rfl rfl⟩
